import Mathlib

/-!
Verification of the Endpoint Configuration & Circuit-Breaker State subsystem
of the hintents repository.

The development shallowly embeds two implementations found in the sources:
the Go client builder (`internal/rpc/builder.go`: `ParseHeaders`, the
`With*` option constructors, `NewClient`, `validate`, `build`) and the
TypeScript `RPCConfigParser` (`parseUrls`, `parseHeaders`, `isValidUrl`,
`loadConfig`).  Library behaviour that the sources call but do not define
(JSON decoding, URL validity, the canonical network constants, and the
endpoint failure tracker) is modelled from the specification and marked as
such in the corresponding doc comments.

Machine integers do not overflow in any of the modelled code paths, so
numbers are embedded as `Nat`/`Int`.  Maps (`map[string]string` in Go,
`Record<string,string>` in TypeScript) are embedded as association lists
updated in insertion order.
-/

set_option autoImplicit false

/-! ## Generic association-list helpers -/

/-- Lookup in an association list (first match wins). -/
def alookup {α β : Type} [DecidableEq α] : List (α × β) → α → Option β
  | [], _ => none
  | (k', v) :: rest, k => if k' = k then some v else alookup rest k

/-- Insert or update a binding.  An existing key keeps its position and gets
the new value; a fresh key is appended at the end.  This matches the update
behaviour of both a JavaScript object and (as an order-erased map) a Go map. -/
def upsert {α β : Type} [DecidableEq α] : List (α × β) → α → β → List (α × β)
  | [], k, v => [(k, v)]
  | (k', v') :: rest, k, v =>
    if k' = k then (k, v) :: rest else (k', v') :: upsert rest k v

/-! ## Character classes and trimming

The sources trim with Go `strings.TrimSpace` and JavaScript
`String.prototype.trim`; both remove leading and trailing whitespace.  The
model restricts whitespace to the four ASCII whitespace characters, which is
exact for every input appearing in the repository. -/

def isWsChar (c : Char) : Bool :=
  c = ' ' || c = '\t' || c = '\n' || c = '\r'

def trimLeftC (l : List Char) : List Char := l.dropWhile isWsChar

def trimRightC (l : List Char) : List Char := (l.reverse.dropWhile isWsChar).reverse

def trimC (l : List Char) : List Char := trimRightC (trimLeftC l)

/-- Splits a character list at every comma, mirroring Go `strings.Split`
and JavaScript `String.prototype.split` with separator `","`.  The result
always has one more element than the number of commas. -/
def splitOnComma : List Char → List (List Char)
  | [] => [[]]
  | c :: rest =>
    if c = ',' then [] :: splitOnComma rest
    else
      match splitOnComma rest with
      | s :: ss => (c :: s) :: ss
      | [] => [[c]]

/-- Separator characters recognised by the header parsers. -/
def isSepChar (c : Char) : Bool := c = '=' || c = ':'

/-- Index of the first `'='` or `':'`, mirroring Go
`strings.IndexAny(part, "=:")` (with `none` for Go's `-1`). -/
def findSep : List Char → Option Nat
  | [] => none
  | c :: rest =>
    if isSepChar c then some 0
    else
      match findSep rest with
      | some i => some (i + 1)
      | none => none

/-- Index of the first occurrence of a given character, mirroring
JavaScript `String.prototype.indexOf` (with `none` for `-1`). -/
def idxOfChar (c : Char) : List Char → Option Nat
  | [] => none
  | x :: rest =>
    if x = c then some 0
    else
      match idxOfChar c rest with
      | some i => some (i + 1)
      | none => none

/-! ## JSON object model

Modelled from the spec: both header parsers first attempt to decode their
input as a JSON object (Go `encoding/json.Unmarshal`, TypeScript
`JSON.parse`); neither decoder is part of the repository sources.  The model
parses a flat JSON object whose values are strings, integer numbers,
booleans or `null` — the shapes exercised by the repository.  Unsupported
JSON shapes (nested containers, fractional numbers, `\u` escapes) make the
parse fail, which sends both parsers to their delimiter fallback. -/

inductive JVal where
  | jstr (s : String)
  | jnum (n : Int)
  | jtrue
  | jfalse
  | jnull
deriving DecidableEq

def JVal.isStr : JVal → Bool
  | .jstr _ => true
  | _ => false

/-- String coercion of a decoded JSON value, as JavaScript `String(value)`
behaves on the supported shapes. -/
def jsToString : JVal → String
  | .jstr s => s
  | .jnum n => toString n
  | .jtrue => "true"
  | .jfalse => "false"
  | .jnull => "null"

def lbrace : Char := Char.ofNat 123

def rbrace : Char := Char.ofNat 125

def skipWs (cs : List Char) : List Char := cs.dropWhile isWsChar

/-- Table of JSON escape sequences supported by the model: each entry maps
the character after the backslash to the character it denotes. -/
def escTable : List (Char × Char) :=
  [('n', '\n'), ('t', '\t'), ('r', '\r'), ('b', Char.ofNat 8), ('f', Char.ofNat 12),
   ('"', '"'), ('\\', '\\'), ('/', '/')]

/-- JSON escape sequences supported by the model. -/
def escChar (e : Char) : Option Char := alookup escTable e

/-- Parses the body of a JSON string after the opening quote, returning the
decoded characters and the rest of the input after the closing quote. -/
def pStrBody : List Char → Option (List Char × List Char)
  | [] => none
  | '\\' :: [] => none
  | '\\' :: e :: rest =>
    match escChar e with
    | some c =>
      match pStrBody rest with
      | some (s, r) => some (c :: s, r)
      | none => none
    | none => none
  | c :: rest =>
    if c = '"' then some ([], rest)
    else
      match pStrBody rest with
      | some (s, r) => some (c :: s, r)
      | none => none

/-- Parses a nonempty run of decimal digits. -/
def pNat (cs : List Char) : Option (Nat × List Char) :=
  let ds := cs.takeWhile Char.isDigit
  if ds = [] then none
  else some (ds.foldl (fun a c => a * 10 + (c.toNat - 48)) 0, cs.dropWhile Char.isDigit)

/-- Parses a JSON integer number with optional leading minus. -/
def pNum : List Char → Option (Int × List Char)
  | '-' :: rest =>
    match pNat rest with
    | some (n, r) => some (-(n : Int), r)
    | none => none
  | cs =>
    match pNat cs with
    | some (n, r) => some ((n : Int), r)
    | none => none

/-- Parses one JSON value of a supported shape. -/
def pVal (cs : List Char) : Option (JVal × List Char) :=
  match cs with
  | [] => none
  | c :: rest =>
    if c = '"' then
      match pStrBody rest with
      | some (s, r) => some (JVal.jstr (String.mk s), r)
      | none => none
    else if cs.take 4 = "true".toList then some (JVal.jtrue, cs.drop 4)
    else if cs.take 5 = "false".toList then some (JVal.jfalse, cs.drop 5)
    else if cs.take 4 = "null".toList then some (JVal.jnull, cs.drop 4)
    else
      match pNum cs with
      | some (n, r) => some (JVal.jnum n, r)
      | none => none

/-- Parses the members of a JSON object after the opening brace, up to and
including the closing brace.  The fuel argument bounds recursion depth. -/
def pMembers : Nat → List Char → Option (List (String × JVal) × List Char)
  | 0, _ => none
  | fuel + 1, cs =>
    match skipWs cs with
    | [] => none
    | c :: rest =>
      if c = '"' then
        match pStrBody rest with
        | none => none
        | some (k, r1) =>
          match skipWs r1 with
          | [] => none
          | c2 :: r2 =>
            if c2 = ':' then
              match pVal (skipWs r2) with
              | none => none
              | some (v, r3) =>
                match skipWs r3 with
                | [] => none
                | c3 :: r4 =>
                  if c3 = ',' then
                    match pMembers fuel r4 with
                    | some (kvs, r5) => some ((String.mk k, v) :: kvs, r5)
                    | none => none
                  else if c3 = rbrace then some ([(String.mk k, v)], r4)
                  else none
            else none
      else none

/-- Parses an entire string as a JSON object (with only trailing whitespace
allowed afterwards), returning its key/value pairs in source order.
Any non-object input yields `none`. -/
def parseJsonObj (s : String) : Option (List (String × JVal)) :=
  match skipWs s.toList with
  | [] => none
  | c :: rest =>
    if c = lbrace then
      match skipWs rest with
      | [] => none
      | c2 :: r2 =>
        if c2 = rbrace then (if skipWs r2 = [] then some [] else none)
        else
          match pMembers (s.length + 1) rest with
          | some (kvs, r3) => if skipWs r3 = [] then some kvs else none
          | none => none
    else none

/-- Modelled from the spec: Go `json.Unmarshal(data, &map[string]string)`.
Decoding succeeds only when the input is a JSON object all of whose values
are JSON strings; a non-string value makes `Unmarshal` report a type error,
which `ParseHeaders` treats as a failed JSON attempt. -/
def jsonUnmarshalStringMap (s : String) : Option (List (String × String)) :=
  match parseJsonObj s with
  | some kvs =>
    if kvs.all (fun kv => kv.2.isStr) then
      some (kvs.foldl (fun m kv => upsert m kv.1 (jsToString kv.2)) [])
    else none
  | none => none

/-! ## Go header parser (`internal/rpc/builder.go`, `ParseHeaders`) -/

/-- One iteration of the Go fallback loop over comma-separated segments:
trim the segment, find the first `'='` or `':'`, trim key and value, and
store the pair when both are nonempty. -/
def goSeg (m : List (String × String)) (seg : List Char) : List (String × String) :=
  let part := trimC seg
  if part = [] then m
  else
    match findSep part with
    | none => m
    | some idx =>
      let key := trimC (part.take idx)
      let value := trimC (part.drop (idx + 1))
      if key ≠ [] ∧ value ≠ [] then upsert m (String.mk key) (String.mk value) else m

/-- Embedding of Go `ParseHeaders`: empty input gives an empty map, a JSON
object decoding into `map[string]string` is returned directly, and any other
input goes through the comma/separator fallback. -/
def ParseHeaders (input : String) : List (String × String) :=
  if input = "" then []
  else
    match jsonUnmarshalStringMap input with
    | some obj => obj
    | none => (splitOnComma input.toList).foldl goSeg []

/-! ## TypeScript header parser (`RPCConfigParser.parseHeaders`) -/

/-- One iteration of the TypeScript fallback loop: the separator index is
the first `'='` when the segment contains one, otherwise the first `':'`
(`pair.indexOf('=') !== -1 ? pair.indexOf('=') : pair.indexOf(':')`). -/
def tsSeg (m : List (String × String)) (seg : List Char) : List (String × String) :=
  let sepIdx :=
    match idxOfChar '=' seg with
    | some i => some i
    | none => idxOfChar ':' seg
  match sepIdx with
  | none => m
  | some idx =>
    let key := trimC (seg.take idx)
    let value := trimC (seg.drop (idx + 1))
    if key ≠ [] ∧ value ≠ [] then upsert m (String.mk key) (String.mk value) else m

namespace RPCConfigParser

/-- Embedding of TypeScript `RPCConfigParser.parseHeaders`: a successful
`JSON.parse` producing an object has every value coerced with `String(...)`;
otherwise the comma-separated fallback runs. -/
def parseHeaders (input : String) : List (String × String) :=
  match parseJsonObj input with
  | some kvs => kvs.foldl (fun m kv => upsert m kv.1 (jsToString kv.2)) []
  | none => (splitOnComma input.toList).foldl tsSeg []

end RPCConfigParser

/-! ## Spec-side header fallback definitions

These two definitions follow the words of the specification (and of the
claims derived from it), to be compared with the source embeddings above. -/

/-- Spec-side segment handling, following the claim's words: within each
segment locate the first occurrence of `'='` or `':'` (whichever of the two
occurs first), split there, trim both sides, and skip the segment when there
is no separator or the trimmed key or value is empty.  Unlike the Go code it
does not pre-trim the segment before locating the separator. -/
def specHeaderSeg (m : List (String × String)) (seg : List Char) : List (String × String) :=
  match findSep seg with
  | none => m
  | some idx =>
    let key := trimC (seg.take idx)
    let value := trimC (seg.drop (idx + 1))
    if key ≠ [] ∧ value ≠ [] then upsert m (String.mk key) (String.mk value) else m

/-- Spec-side fallback parsing of a non-JSON header string: split on commas
and process each segment with `specHeaderSeg`. -/
def specHeaderFallback (input : String) : List (String × String) :=
  (splitOnComma input.toList).foldl specHeaderSeg []

/-- Spec-side segment handling following the amended claim's words for the
TypeScript parser: split at the first `'='` when the segment contains one,
otherwise at the first `':'`; trim both sides; skip separator-less segments
and segments with an empty trimmed key or value. -/
def specTsHeaderSeg (m : List (String × String)) (seg : List Char) : List (String × String) :=
  match (match idxOfChar '=' seg with
         | some i => some i
         | none => idxOfChar ':' seg) with
  | none => m
  | some idx =>
    let key := trimC (seg.take idx)
    let value := trimC (seg.drop (idx + 1))
    if key ≠ [] ∧ value ≠ [] then upsert m (String.mk key) (String.mk value) else m

/-- Spec-side fallback parsing for the TypeScript parser under the amended
claim: split on commas and process each segment with `specTsHeaderSeg`. -/
def specTsHeaderFallback (input : String) : List (String × String) :=
  (splitOnComma input.toList).foldl specTsHeaderSeg []

/-- Tests whether the first list is an initial segment of the second, by
comparing it with the corresponding take of the second. -/
def isPrefixList (p l : List Char) : Bool := decide (l.take p.length = p)

/-! ## URL validation

Modelled from the spec (§4.1): a string is a valid endpoint URL iff it
parses as an absolute URL whose scheme is exactly `http` or `https`.  The
underlying parsers (Go `net/url`, WHATWG `new URL`) are not part of the
repository sources, so validity is modelled as carrying one of the two
schemes followed by a nonempty remainder. -/
def isValidURL (s : String) : Bool :=
  (isPrefixList "http://".toList s.toList && decide (7 < s.toList.length)) ||
  (isPrefixList "https://".toList s.toList && decide (8 < s.toList.length))

/-! ## Go client builder (`internal/rpc/builder.go`) -/

/-- Network identifiers.  The concrete `Network` values and canonical URLs
live in a repository file outside `src/`; they are modelled from the spec as
distinct nonempty strings. -/
abbrev Network := String

def Mainnet : Network := "mainnet"

def Testnet : Network := "testnet"

def Futurenet : Network := "futurenet"

/-- Modelled from the spec: canonical Horizon endpoint per network. -/
def MainnetHorizonURL : String := "https://horizon.stellar.org"

def TestnetHorizonURL : String := "https://horizon-testnet.stellar.org"

def FuturenetHorizonURL : String := "https://horizon-futurenet.stellar.org"

/-- Modelled from the spec: canonical Soroban endpoint per network. -/
def MainnetSorobanURL : String := "https://soroban-rpc.mainnet.stellar.gateway.fm"

def TestnetSorobanURL : String := "https://soroban-testnet.stellar.org"

def FuturenetSorobanURL : String := "https://rpc-futurenet.stellar.org"

structure NetworkConfig where
  Name : String
  HorizonURL : String
  SorobanRPCURL : String
  NetworkPassphrase : String
deriving DecidableEq

/-- Modelled from the spec: canonical per-network configurations. -/
def MainnetConfig : NetworkConfig :=
  { Name := Mainnet, HorizonURL := MainnetHorizonURL, SorobanRPCURL := MainnetSorobanURL,
    NetworkPassphrase := "Public Global Stellar Network ; September 2015" }

def TestnetConfig : NetworkConfig :=
  { Name := Testnet, HorizonURL := TestnetHorizonURL, SorobanRPCURL := TestnetSorobanURL,
    NetworkPassphrase := "Test SDF Network ; September 2015" }

def FuturenetConfig : NetworkConfig :=
  { Name := Futurenet, HorizonURL := FuturenetHorizonURL, SorobanRPCURL := FuturenetSorobanURL,
    NetworkPassphrase := "Test SDF Future Network ; October 2022" }

inductive BuildError where
  | validation (msg : String)
  | configuration (msg : String)
deriving DecidableEq

/-- Modelled from the spec: the transport handle produced by
`createHTTPClient(token, headers, timeout)` (§4.4 step 4), reduced to the
data it is constructed from. -/
structure HTTPClientModel where
  token : String
  headers : List (String × String)
  timeout : Nat
deriving DecidableEq

def createHTTPClient (token : String) (headers : List (String × String))
    (timeout : Nat) : HTTPClientModel :=
  { token := token, headers := headers, timeout := timeout }

structure ClientBuilder where
  network : Network
  token : String
  horizonURL : String
  sorobanURL : String
  altURLs : List String
  cacheEnabled : Bool
  config : Option NetworkConfig
  httpClient : Option HTTPClientModel
  requestTimeout : Nat
  headers : List (String × String)
deriving DecidableEq

/-- Default HTTP timeout (15 seconds), in milliseconds. -/
def defaultHTTPTimeout : Nat := 15000

def newBuilder : ClientBuilder :=
  { network := Mainnet, token := "", horizonURL := "", sorobanURL := "", altURLs := [],
    cacheEnabled := true, config := none, httpClient := none,
    requestTimeout := defaultHTTPTimeout, headers := [] }

structure Client where
  HorizonURL : String
  Network : Network
  SorobanURL : String
  AltURLs : List String
  httpClient : HTTPClientModel
  token : String
  Config : NetworkConfig
  CacheEnabled : Bool
  Headers : List (String × String)
  failures : List (String × Nat)
  lastFailure : List (String × Nat)
deriving DecidableEq

abbrev ClientOption := ClientBuilder → Except BuildError ClientBuilder

def WithNetwork (net : Network) : ClientOption := fun b =>
  .ok { b with network := if net = "" then Mainnet else net }

def WithToken (token : String) : ClientOption := fun b =>
  .ok { b with token := token }

def WithHeaders (headers : List (String × String)) : ClientOption := fun b =>
  .ok { b with headers := headers }

def WithHorizonURL (url : String) : ClientOption := fun b =>
  if url ≠ "" ∧ isValidURL url = false then
    .error (.validation "invalid HorizonURL")
  else
    .ok { b with horizonURL := url, altURLs := [url] }

def WithAltURLs (urls : List String) : ClientOption := fun b =>
  if urls.all isValidURL then
    .ok (match urls with
         | [] => b
         | u :: _ => { b with altURLs := urls, horizonURL := u })
  else .error (.validation "invalid URL in altURLs")

def WithSorobanURL (url : String) : ClientOption := fun b =>
  if url ≠ "" ∧ isValidURL url = false then
    .error (.validation "invalid SorobanURL")
  else
    .ok { b with sorobanURL := url }

/-- Modelled from the spec (§4.4): a network config is rejected when its
name is empty, its Horizon URL fails URL validation, or its passphrase is
empty. -/
def ValidateNetworkConfig (cfg : NetworkConfig) : Option String :=
  if cfg.Name = "" then some "missing name"
  else if isValidURL cfg.HorizonURL = false then some "invalid HorizonURL"
  else if cfg.NetworkPassphrase = "" then some "missing passphrase"
  else none

def WithNetworkConfig (cfg : NetworkConfig) : ClientOption := fun b =>
  match ValidateNetworkConfig cfg with
  | some m => .error (.validation ("invalid network config: " ++ m))
  | none =>
    .ok { b with config := some cfg, network := cfg.Name,
                 horizonURL := cfg.HorizonURL, sorobanURL := cfg.SorobanRPCURL }

def WithCacheEnabled (enabled : Bool) : ClientOption := fun b =>
  .ok { b with cacheEnabled := enabled }

def WithRequestTimeout (d : Nat) : ClientOption := fun b =>
  .ok { b with requestTimeout := d }

def WithHTTPClient (client : HTTPClientModel) : ClientOption := fun b =>
  .ok { b with httpClient := some client }

def getDefaultHorizonURL (net : Network) : String :=
  if net = Testnet then TestnetHorizonURL
  else if net = Futurenet then FuturenetHorizonURL
  else MainnetHorizonURL

def getDefaultSorobanURL (net : Network) : String :=
  if net = Testnet then TestnetSorobanURL
  else if net = Futurenet then FuturenetSorobanURL
  else MainnetSorobanURL

def getConfig (net : Network) : NetworkConfig :=
  if net = Testnet then TestnetConfig
  else if net = Futurenet then FuturenetConfig
  else MainnetConfig

/-- First statement of `(*clientBuilder).validate`: default the network. -/
def validateNetworkStep (b : ClientBuilder) : ClientBuilder :=
  if b.network = "" then { b with network := Mainnet } else b

/-- Second statement of `(*clientBuilder).validate`: when neither primary
nor secondary URL is set, default the primary URL for the network. -/
def validateHorizonStep (b : ClientBuilder) : ClientBuilder :=
  if b.horizonURL = "" ∧ b.sorobanURL = "" then
    { b with horizonURL := getDefaultHorizonURL b.network }
  else b

/-- Embedding of `(*clientBuilder).validate`; the Go method always returns
a nil error, which the `Except` result mirrors. -/
def validate (b : ClientBuilder) : Except BuildError ClientBuilder :=
  .ok (validateHorizonStep (validateNetworkStep b))

/-- Build step: default the Soroban URL for the network. -/
def buildSorobanStep (b : ClientBuilder) : ClientBuilder :=
  if b.sorobanURL = "" then { b with sorobanURL := getDefaultSorobanURL b.network } else b

/-- Build step: default the network config. -/
def buildConfigStep (b : ClientBuilder) : ClientBuilder :=
  if b.config = none then { b with config := some (getConfig b.network) } else b

/-- Build step: construct the transport handle when none was injected. -/
def buildHTTPStep (b : ClientBuilder) : ClientBuilder :=
  if b.httpClient = none then
    { b with httpClient := some (createHTTPClient b.token b.headers b.requestTimeout) }
  else b

/-- Build step: seed the alternate list from a set primary URL. -/
def buildAltFromHorizonStep (b : ClientBuilder) : ClientBuilder :=
  if b.altURLs = [] ∧ b.horizonURL ≠ "" then { b with altURLs := [b.horizonURL] } else b

/-- Build step: take a still-empty primary URL from the resolved config. -/
def buildHorizonFromConfigStep (b : ClientBuilder) : ClientBuilder :=
  if b.horizonURL = "" then { b with horizonURL := (b.config.getD MainnetConfig).HorizonURL }
  else b

/-- Build step: final fallback for a still-empty alternate list. -/
def buildAltFallbackStep (b : ClientBuilder) : ClientBuilder :=
  if b.altURLs = [] then { b with altURLs := [b.horizonURL] } else b

/-- Embedding of `(*clientBuilder).build`, one step per `if` statement of
the Go method.  The Go method dereferences `b.config` after having just
defaulted it; the `getD` calls totalise those dereferences and are only
ever taken on `some`. -/
def build (b : ClientBuilder) : Except BuildError Client :=
  let b := buildSorobanStep b
  let b := buildConfigStep b
  let b := buildHTTPStep b
  let b := buildAltFromHorizonStep b
  let b := buildHorizonFromConfigStep b
  let b := buildAltFallbackStep b
  .ok { HorizonURL := b.horizonURL, Network := b.network, SorobanURL := b.sorobanURL,
        AltURLs := b.altURLs,
        httpClient := b.httpClient.getD (createHTTPClient b.token b.headers b.requestTimeout),
        token := b.token, Config := b.config.getD MainnetConfig,
        CacheEnabled := b.cacheEnabled, Headers := b.headers,
        failures := [], lastFailure := [] }

/-- Sequential application of options with stop-on-first-error, as the loop
in `NewClient` does. -/
def applyOptions : List ClientOption → ClientBuilder → Except BuildError ClientBuilder
  | [], b => .ok b
  | o :: os, b =>
    match o b with
    | .error e => .error e
    | .ok b' => applyOptions os b'

/-- Embedding of `NewClient`.  The ambient `os.Getenv("ERST_RPC_TOKEN")`
read is passed in explicitly as `tokenEnv`. -/
def NewClient (tokenEnv : String) (opts : List ClientOption) : Except BuildError Client :=
  let b := newBuilder
  let b := if b.token = "" then { b with token := tokenEnv } else b
  match applyOptions opts b with
  | .error e => .error e
  | .ok b =>
    match validate b with
    | .error e => .error e
    | .ok b => build b

/-- Syntax of the exported option constructors, used to quantify over
"every option sequence" built from the library's own options. -/
inductive OptionSpec where
  | withNetwork (net : Network)
  | withToken (token : String)
  | withHeaders (headers : List (String × String))
  | withHorizonURL (url : String)
  | withAltURLs (urls : List String)
  | withSorobanURL (url : String)
  | withNetworkConfig (cfg : NetworkConfig)
  | withCacheEnabled (enabled : Bool)
  | withRequestTimeout (d : Nat)
  | withHTTPClient (client : HTTPClientModel)
deriving DecidableEq

def interpOption : OptionSpec → ClientOption
  | .withNetwork net => WithNetwork net
  | .withToken token => WithToken token
  | .withHeaders headers => WithHeaders headers
  | .withHorizonURL url => WithHorizonURL url
  | .withAltURLs urls => WithAltURLs urls
  | .withSorobanURL url => WithSorobanURL url
  | .withNetworkConfig cfg => WithNetworkConfig cfg
  | .withCacheEnabled enabled => WithCacheEnabled enabled
  | .withRequestTimeout d => WithRequestTimeout d
  | .withHTTPClient client => WithHTTPClient client

/-- `NewClient` applied to a sequence of the library's own options. -/
def NewClientS (tokenEnv : String) (opts : List OptionSpec) : Except BuildError Client :=
  NewClient tokenEnv (opts.map interpOption)

/-! ## TypeScript RPC configuration (`RPCConfigParser`) -/

/-- The `rpc` option and the URL environment variable accept either a
comma-delimited string or an explicit list. -/
inductive UrlInput where
  | str (s : String)
  | list (l : List String)
deriving DecidableEq

/-- The `headers` option accepts a structured record or a raw string. -/
inductive HeadersInput where
  | record (m : List (String × String))
  | str (s : String)
deriving DecidableEq

structure LoadOptions where
  rpc : Option UrlInput
  timeout : Option Nat
  retries : Option Nat
  headers : Option HeadersInput
deriving DecidableEq

/-- Explicit snapshot of the two environment variables `loadConfig` reads;
`none` models an absent variable. -/
structure EnvSnapshot where
  STELLAR_RPC_URLS : Option String
  STELLAR_RPC_HEADERS : Option String
deriving DecidableEq

structure RPCConfig where
  urls : List String
  timeout : Nat
  retries : Nat
  retryDelay : Nat
  circuitBreakerThreshold : Nat
  circuitBreakerTimeout : Nat
  maxRedirects : Nat
  headers : Option (List (String × String))
deriving DecidableEq

/-- JavaScript truthiness of a string value: only the empty string is
falsy. -/
def truthyS (s : String) : Bool := s ≠ ""

/-- JavaScript truthiness of the resolved URL input: an absent value and an
empty string are falsy; every array (even empty) is truthy. -/
def truthyUrlInput : Option UrlInput → Bool
  | none => false
  | some (.str s) => truthyS s
  | some (.list _) => true

namespace RPCConfigParser

/-- Embedding of `RPCConfigParser.isValidUrl`: `new URL(urlString)` with a
protocol check, modelled by the shared spec-level validator `isValidURL`. -/
def isValidUrl (urlString : String) : Bool := isValidURL urlString

/-- Embedding of `RPCConfigParser.parseUrls`: array input is taken as-is,
string input is split on commas and each piece trimmed; invalid URLs are
filtered out, and zero surviving URLs is an error. -/
def parseUrls (input : UrlInput) : Except String (List String) :=
  let urls : List String :=
    match input with
    | .list l => l
    | .str s => (splitOnComma s.toList).map (fun cs => String.mk (trimC cs))
  let validUrls := urls.filter isValidUrl
  if validUrls = [] then .error "No valid RPC URLs provided" else .ok validUrls

/-- The `urlInput` expression `options.rpc || process.env.STELLAR_RPC_URLS`:
a falsy option value falls back to the environment variable. -/
def resolveUrlInput (o : LoadOptions) (env : EnvSnapshot) : Option UrlInput :=
  match o.rpc with
  | some (.str s) =>
    if truthyS s then some (.str s) else env.STELLAR_RPC_URLS.map UrlInput.str
  | some (.list l) => some (.list l)
  | none => env.STELLAR_RPC_URLS.map UrlInput.str

/-- Header resolution from the environment branch of `loadConfig`: a truthy
`STELLAR_RPC_HEADERS` value is parsed, anything else leaves headers
undefined. -/
def envHeaders (env : EnvSnapshot) : Option (List (String × String)) :=
  match env.STELLAR_RPC_HEADERS with
  | some s => if truthyS s then some (parseHeaders s) else none
  | none => none

/-- Header resolution in `loadConfig`: a truthy `options.headers` wins (a
string is parsed, a record is taken as-is, including an empty record);
otherwise the environment variable is consulted. -/
def resolveHeaders (o : LoadOptions) (env : EnvSnapshot) : Option (List (String × String)) :=
  match o.headers with
  | some (.str s) => if truthyS s then some (parseHeaders s) else envHeaders env
  | some (.record m) => some m
  | none => envHeaders env

def msgNoUrls : String :=
  "No RPC URLs configured. Use --rpc flag or STELLAR_RPC_URLS env variable"

/-- The configuration literal built by `loadConfig` before the conditional
`headers` assignment: `options.timeout || 30000` and `options.retries || 3`
follow JavaScript truthiness (`0` falls back to the default). -/
def mkBaseCfg (o : LoadOptions) (urls : List String) : RPCConfig :=
  { urls := urls
    timeout := match o.timeout with | some t => if t = 0 then 30000 else t | none => 30000
    retries := match o.retries with | some r => if r = 0 then 3 else r | none => 3
    retryDelay := 1000
    circuitBreakerThreshold := 5
    circuitBreakerTimeout := 60000
    maxRedirects := 5
    headers := none }

/-- The final `if (headers && Object.keys(headers).length > 0)` assignment. -/
def attachHeaders (cfg : RPCConfig) (h : Option (List (String × String))) : RPCConfig :=
  match h with
  | some h => if h = [] then cfg else { cfg with headers := some h }
  | none => cfg

/-- Embedding of `RPCConfigParser.loadConfig` over an explicit environment
snapshot. -/
def loadConfig (env : EnvSnapshot) (o : LoadOptions) : Except String RPCConfig :=
  match resolveUrlInput o env with
  | none => .error msgNoUrls
  | some input =>
    if truthyUrlInput (some input) then
      match parseUrls input with
      | .error e => .error e
      | .ok urls => .ok (attachHeaders (mkBaseCfg o urls) (resolveHeaders o env))
    else .error msgNoUrls

end RPCConfigParser

/-! ## Endpoint failure tracker

Modelled from the spec (§4.5): the tracker operations `recordFailure`,
`recordSuccess` and `isEligible` are consumed by the request dispatcher,
which is outside the sources; the client only carries the two empty per-URL
maps they operate on.  Timestamps are natural numbers; `circuitBreakerTimeout`
"elapsed since the last failure" means `lastFailureAt + timeout ≤ now`. -/

structure FailureState where
  consecutiveFailures : Nat
  lastFailureAt : Option Nat
deriving DecidableEq

/-- Lazily created per-URL state: zero failures, no failure timestamp. -/
def FailureState.initial : FailureState :=
  { consecutiveFailures := 0, lastFailureAt := none }

abbrev TrackerState := List (String × FailureState)

inductive TrackOp where
  | recordFailure (url : String) (time : Nat)
  | recordSuccess (url : String)
deriving DecidableEq

def getFS (t : TrackerState) (url : String) : FailureState :=
  (alookup t url).getD FailureState.initial

def setFS (t : TrackerState) (url : String) (fs : FailureState) : TrackerState :=
  upsert t url fs

/-- Modelled from the spec: `recordFailure(url)` increments the URL's
consecutive-failure count and stamps the failure time; `recordSuccess(url)`
resets the count to zero and clears the timestamp. -/
def applyTrackOp (t : TrackerState) : TrackOp → TrackerState
  | .recordFailure url time =>
    let fs := getFS t url
    setFS t url { consecutiveFailures := fs.consecutiveFailures + 1, lastFailureAt := some time }
  | .recordSuccess url =>
    setFS t url { consecutiveFailures := 0, lastFailureAt := none }

def runTrackOps (t : TrackerState) (ops : List TrackOp) : TrackerState :=
  ops.foldl applyTrackOp t

/-- Modelled from the spec: an endpoint is eligible (CLOSED or HALF_OPEN)
unless it has at least `threshold` consecutive failures whose latest
occurrence is less than `timeout` ago. -/
def isEligible (threshold timeout : Nat) (t : TrackerState) (url : String) (now : Nat) : Bool :=
  let fs := getFS t url
  if fs.consecutiveFailures < threshold then true
  else
    match fs.lastFailureAt with
    | none => true
    | some tf => tf + timeout ≤ now

/-! ## Remaining spec-side definitions -/

/-- Spec-side description of `parseUrls` on a comma-delimited string: split
on commas, trim each candidate, keep exactly the valid ones in order, and
fail when none survives. -/
def specParseUrlsString (s : String) : Except String (List String) :=
  let candidates :=
    ((splitOnComma s.toList).map (fun cs => String.mk (trimC cs))).filter isValidURL
  if candidates = [] then .error "No valid RPC URLs provided" else .ok candidates

/-- Spec-side description, per the amended claim, of `parseUrls` on an
explicit list: entries are passed to validation as-is, untrimmed; the valid
ones are kept in order and zero survivors is an error. -/
def specParseUrlsList (l : List String) : Except String (List String) :=
  let candidates := l.filter isValidURL
  if candidates = [] then .error "No valid RPC URLs provided" else .ok candidates

/-- The builder state `NewClient` holds right before applying the options:
`newBuilder` with the token environment fallback applied. -/
def initialBuilder (tokenEnv : String) : ClientBuilder :=
  let b := newBuilder
  if b.token = "" then { b with token := tokenEnv } else b

/-- Options that neither install a custom network config nor set the
horizon URL to the empty string; under these the alternate-URL/primary-URL
alignment of the amended claim C3 holds. -/
def safeOpt : OptionSpec → Bool
  | .withNetworkConfig _ => false
  | .withHorizonURL url => url ≠ ""
  | _ => true

/-- Decidable equality for `Except` results, used to evaluate the embedded
functions at concrete inputs. -/
instance exceptDecEq {ε α : Type} [DecidableEq ε] [DecidableEq α] :
    DecidableEq (Except ε α) := fun x y =>
  match x, y with
  | .ok a, .ok b =>
    if h : a = b then .isTrue (by rw [h])
    else .isFalse (by intro hh; cases hh; exact h rfl)
  | .error a, .error b =>
    if h : a = b then .isTrue (by rw [h])
    else .isFalse (by intro hh; cases hh; exact h rfl)
  | .ok _, .error _ => .isFalse (by intro hh; cases hh)
  | .error _, .ok _ => .isFalse (by intro hh; cases hh)

/-! ## Helper lemmas about whitespace, trimming and separators -/

theorem ws_not_sep {c : Char} (h : isWsChar c = true) : isSepChar c = false := by
  simp [isWsChar] at h
  rcases h with ((h | h) | h) | h <;> simp [isSepChar, h]

theorem findSep_wsOnly {l : List Char} (h : l.all isWsChar = true) : findSep l = none := by
  induction l with
  | nil => rfl
  | cons c rest ih =>
    simp only [List.all_cons, Bool.and_eq_true] at h
    simp [findSep, ws_not_sep h.1, ih h.2]

theorem findSep_append_none {a : List Char} (b : List Char) (h : findSep a = none) :
    findSep (a ++ b) =
      match findSep b with
      | some i => some (a.length + i)
      | none => none := by
  induction a with
  | nil => simp; cases findSep b <;> simp
  | cons c rest ih =>
    by_cases hc : isSepChar c
    · simp [findSep, hc] at h
    · simp only [findSep, hc] at h
      have hrest : findSep rest = none := by
        cases hr : findSep rest with
        | none => rfl
        | some j => rw [hr] at h; simp at h
      rw [List.cons_append]
      show (if isSepChar c then some 0
            else match findSep (rest ++ b) with
                 | some i => some (i + 1)
                 | none => none) = _
      rw [if_neg (by simp [hc]), ih hrest]
      cases findSep b <;> simp [Nat.add_assoc, Nat.add_comm 1]

theorem findSep_append_some {a : List Char} {i : Nat} (b : List Char)
    (h : findSep a = some i) : findSep (a ++ b) = some i := by
  induction a generalizing i with
  | nil => simp [findSep] at h
  | cons c rest ih =>
    by_cases hc : isSepChar c
    · simp [findSep, hc] at h ⊢; exact h
    · simp only [findSep, hc] at h
      cases hr : findSep rest with
      | none => rw [hr] at h; simp at h
      | some j =>
        rw [hr] at h
        simp at h
        rw [List.cons_append]
        show (if isSepChar c then some 0
              else match findSep (rest ++ b) with
                   | some k => some (k + 1)
                   | none => none) = _
        rw [if_neg (by simp [hc]), ih hr]
        simp only [Option.some.injEq]
        omega

theorem findSep_lt_length {l : List Char} {i : Nat} (h : findSep l = some i) : i < l.length := by
  induction l generalizing i with
  | nil => simp [findSep] at h
  | cons c rest ih =>
    by_cases hc : isSepChar c
    · simp [findSep, hc] at h
      simp only [List.length_cons]
      omega
    · simp only [findSep, hc] at h
      cases hr : findSep rest with
      | none => rw [hr] at h; simp at h
      | some j =>
        rw [hr] at h
        simp at h
        have hj := ih hr
        simp only [List.length_cons]
        omega

theorem take_append_add (a b : List Char) (n : Nat) :
    (a ++ b).take (a.length + n) = a ++ b.take n := by
  rw [List.take_append_eq_append_take]
  simp

theorem drop_append_add (a b : List Char) (n : Nat) :
    (a ++ b).drop (a.length + n) = b.drop n := by
  rw [List.drop_append_eq_append_drop]
  simp

theorem take_append_of_le_len {a : List Char} {n : Nat} (b : List Char) (h : n ≤ a.length) :
    (a ++ b).take n = a.take n := by
  rw [List.take_append_eq_append_take, Nat.sub_eq_zero_of_le h]
  simp

theorem drop_append_of_le_len {a : List Char} {n : Nat} (b : List Char) (h : n ≤ a.length) :
    (a ++ b).drop n = a.drop n ++ b := by
  rw [List.drop_append_eq_append_drop, Nat.sub_eq_zero_of_le h]
  simp

theorem dropWhile_ws_append {a : List Char} (x : List Char) (h : a.all isWsChar = true) :
    (a ++ x).dropWhile isWsChar = x.dropWhile isWsChar := by
  induction a with
  | nil => simp
  | cons c rest ih =>
    simp only [List.all_cons, Bool.and_eq_true] at h
    simp [List.dropWhile_cons, h.1, ih h.2]

theorem dropWhile_wsOnly {l : List Char} (h : l.all isWsChar = true) :
    l.dropWhile isWsChar = [] := by
  have := dropWhile_ws_append ([] : List Char) h
  simpa using this

theorem takeWhile_all (p : Char → Bool) (l : List Char) : (l.takeWhile p).all p = true := by
  induction l with
  | nil => rfl
  | cons c rest ih =>
    by_cases hp : p c
    · simp [List.takeWhile_cons, hp, ih]
    · simp [List.takeWhile_cons, hp]

theorem trimC_ws_append {a x : List Char} (h : a.all isWsChar = true) :
    trimC (a ++ x) = trimC x := by
  unfold trimC trimLeftC
  rw [dropWhile_ws_append x h]

theorem trimRightC_append_ws {x b : List Char} (h : b.all isWsChar = true) :
    trimRightC (x ++ b) = trimRightC x := by
  unfold trimRightC
  rw [List.reverse_append, dropWhile_ws_append x.reverse (by simpa using h)]

theorem dropWhile_append_cases (p : Char → Bool) (x b : List Char) :
    (x ++ b).dropWhile p =
      if x.dropWhile p = [] then b.dropWhile p else x.dropWhile p ++ b := by
  induction x with
  | nil => simp
  | cons c xs ih =>
    by_cases hp : p c
    · simp [List.dropWhile_cons, hp, ih]
    · simp [List.dropWhile_cons, hp]

theorem trimC_append_ws {x b : List Char} (h : b.all isWsChar = true) :
    trimC (x ++ b) = trimC x := by
  unfold trimC trimLeftC
  rw [dropWhile_append_cases]
  by_cases hx : x.dropWhile isWsChar = []
  · rw [if_pos hx, hx, dropWhile_wsOnly h]
  · rw [if_neg hx]
    exact trimRightC_append_ws h

theorem seg_decomp (seg : List Char) :
    ∃ pre suf, seg = pre ++ (trimC seg ++ suf) ∧
      pre.all isWsChar = true ∧ suf.all isWsChar = true := by
  refine ⟨seg.takeWhile isWsChar,
    ((seg.dropWhile isWsChar).reverse.takeWhile isWsChar).reverse, ?_, ?_, ?_⟩
  · conv_lhs => rw [← List.takeWhile_append_dropWhile (p := isWsChar) (l := seg)]
    congr 1
    show seg.dropWhile isWsChar = trimC seg ++ _
    have : trimC seg = trimRightC (seg.dropWhile isWsChar) := rfl
    rw [this]
    unfold trimRightC
    conv_lhs => rw [← List.reverse_reverse (seg.dropWhile isWsChar),
      ← List.takeWhile_append_dropWhile (p := isWsChar)
        (l := (seg.dropWhile isWsChar).reverse)]
    rw [List.reverse_append]
  · exact takeWhile_all _ _
  · rw [List.all_reverse]
    exact takeWhile_all isWsChar (seg.dropWhile isWsChar).reverse

/-- The Go fallback loop body coincides with the spec-side description: Go
trims the segment before locating the separator, which never changes the
first `'='`-or-`':'` position relative to the untrimmed segment, nor the
trimmed key and value. -/
theorem goSeg_eq_specHeaderSeg (m : List (String × String)) (seg : List Char) :
    goSeg m seg = specHeaderSeg m seg := by
  obtain ⟨pre, suf, hseg, hpre, hsuf⟩ := seg_decomp seg
  by_cases ht : trimC seg = []
  · have hsegws : seg.all isWsChar = true := by
      rw [hseg, ht]
      simp [List.all_append, hpre, hsuf]
    simp [goSeg, specHeaderSeg, ht, findSep_wsOnly hsegws]
  · cases hfs : findSep (trimC seg) with
    | none =>
      have h1 : findSep (trimC seg ++ suf) = none := by
        rw [findSep_append_none suf hfs, findSep_wsOnly hsuf]
      have h2 : findSep seg = none := by
        conv_lhs => rw [hseg]
        rw [findSep_append_none _ (findSep_wsOnly hpre), h1]
      simp [goSeg, specHeaderSeg, ht, hfs, h2]
    | some i =>
      have hlt : i < (trimC seg).length := findSep_lt_length hfs
      have h1 : findSep (trimC seg ++ suf) = some i := findSep_append_some suf hfs
      have h2 : findSep seg = some (pre.length + i) := by
        conv_lhs => rw [hseg]
        rw [findSep_append_none _ (findSep_wsOnly hpre), h1]
      have hkey : trimC (seg.take (pre.length + i)) = trimC ((trimC seg).take i) := by
        conv_lhs => rw [hseg]
        rw [take_append_add, take_append_of_le_len _ (Nat.le_of_lt hlt),
          trimC_ws_append hpre]
      have hval : trimC (seg.drop (pre.length + i + 1)) = trimC ((trimC seg).drop (i + 1)) := by
        conv_lhs => rw [hseg]
        rw [Nat.add_assoc, drop_append_add, drop_append_of_le_len _ hlt,
          trimC_append_ws hsuf]
      simp only [goSeg, specHeaderSeg, ht, if_neg ht, h2, hfs, hkey, hval]
      simp

/-- C6 counterexample: the claim says both header parsers split a non-JSON
segment at the first `'='` or `':'` whichever occurs first, so that the
segment `a:b=c` yields key `a` and value `b=c`.  The TypeScript parser
instead prefers the first `'='` anywhere in the segment, yielding key `a:b`
and value `c`. -/
theorem C6_counterexample :
    parseJsonObj "a:b=c" = none ∧
    RPCConfigParser.parseHeaders "a:b=c" = [("a:b", "c")] ∧
    RPCConfigParser.parseHeaders "a:b=c" ≠ [("a", "b=c")] := by
  refine ⟨rfl, rfl, by decide⟩

/-- C6 (amended): for every input string that is not a JSON object, the Go
parser splits each comma-separated segment at the first occurrence of `'='`
or `':'` (whichever of the two occurs first), while the TypeScript parser
splits at the first `'='` when the segment contains one and otherwise at the
first `':'`; both trim whitespace from key and value and silently skip any
segment without a separator or with an empty trimmed key or value. -/
theorem C6_header_fallback_amended :
    (∀ input : String, jsonUnmarshalStringMap input = none →
      ParseHeaders input = specHeaderFallback input) ∧
    (∀ input : String, parseJsonObj input = none →
      RPCConfigParser.parseHeaders input = specTsHeaderFallback input) := by
  constructor
  · intro input hj
    by_cases h0 : input = ""
    · subst h0
      rfl
    · unfold ParseHeaders
      rw [if_neg h0]
      simp only [hj]
      exact List.foldl_ext goSeg specHeaderSeg [] (fun m seg _ => goSeg_eq_specHeaderSeg m seg)
  · intro input hj
    unfold RPCConfigParser.parseHeaders
    simp only [hj]
    exact List.foldl_ext tsSeg specTsHeaderSeg [] (fun m seg _ => rfl)

/-- Witness for C6 at concrete non-JSON inputs. -/
theorem C6_header_fallback_amended_witness :
    ParseHeaders "X=1, Y:2" = specHeaderFallback "X=1, Y:2" ∧
    RPCConfigParser.parseHeaders "X=1, Y:2" = specTsHeaderFallback "X=1, Y:2" :=
  ⟨C6_header_fallback_amended.1 "X=1, Y:2" rfl,
   C6_header_fallback_amended.2 "X=1, Y:2" rfl⟩

/-- C2: evaluation of both header parsers at the input from the spec's own
test vector.  Go `json.Unmarshal` into `map[string]string` rejects the
numeric value `2`, so the Go parser falls through to the delimiter fallback
and produces garbage keys, while the TypeScript parser returns the mapping
the claim (and the repository's Go test `TestParseHeadersHelper`) expects. -/
theorem C2_go_json_divergence :
    ParseHeaders "\x7b\"A\":\"1\",\"B\":2\x7d" =
      [("\x7b\"A\"", "\"1\""), ("\"B\"", "2\x7d")] ∧
    alookup (ParseHeaders "\x7b\"A\":\"1\",\"B\":2\x7d") "A" = none ∧
    RPCConfigParser.parseHeaders "\x7b\"A\":\"1\",\"B\":2\x7d" = [("A", "1"), ("B", "2")] := by
  refine ⟨rfl, rfl, rfl⟩

/-! ## Association-list and tracker lemmas -/

theorem alookup_upsert_self {α β : Type} [DecidableEq α] (m : List (α × β)) (k : α) (v : β) :
    alookup (upsert m k v) k = some v := by
  induction m with
  | nil => simp [upsert, alookup]
  | cons p rest ih =>
    obtain ⟨k', v'⟩ := p
    by_cases h : k' = k
    · simp [upsert, h, alookup]
    · simp [upsert, h, alookup, ih]

theorem getFS_setFS_self (t : TrackerState) (url : String) (fs : FailureState) :
    getFS (setFS t url fs) url = fs := by
  simp [getFS, setFS, alookup_upsert_self]

theorem getFS_fail (t : TrackerState) (url : String) (time : Nat) :
    getFS (applyTrackOp t (.recordFailure url time)) url =
      { consecutiveFailures := (getFS t url).consecutiveFailures + 1,
        lastFailureAt := some time } := by
  simp [applyTrackOp, getFS_setFS_self]

theorem getFS_success (t : TrackerState) (url : String) :
    getFS (applyTrackOp t (.recordSuccess url)) url =
      { consecutiveFailures := 0, lastFailureAt := none } := by
  simp [applyTrackOp, getFS_setFS_self]

theorem count_after_failures (t : TrackerState) (url : String) (ts : List Nat) :
    (getFS (runTrackOps t (ts.map (TrackOp.recordFailure url))) url).consecutiveFailures =
      (getFS t url).consecutiveFailures + ts.length := by
  induction ts generalizing t with
  | nil => simp [runTrackOps]
  | cons x xs ih =>
    simp only [List.map_cons, runTrackOps, List.foldl_cons]
    have h := ih (applyTrackOp t (.recordFailure url x))
    simp only [runTrackOps] at h
    rw [h, getFS_fail]
    simp only [List.length_cons]
    omega

theorem last_after_failures (t : TrackerState) (url : String) (ts0 : List Nat) (tLast : Nat) :
    (getFS (runTrackOps t ((ts0 ++ [tLast]).map (TrackOp.recordFailure url))) url).lastFailureAt
      = some tLast := by
  rw [List.map_append, runTrackOps, List.foldl_append]
  simp only [List.map_cons, List.map_nil, List.foldl_cons, List.foldl_nil]
  rw [getFS_fail]

/-- C1: after `threshold` consecutive `recordFailure(url)` calls (appended
to any prior operation sequence, with no intervening `recordSuccess(url)`
among them), `isEligible(url)` is false while less than `timeout` has
elapsed since the last recorded failure; it is true again once `timeout`
has elapsed, and immediately after `recordSuccess(url)`. -/
theorem C1_circuit_breaker (threshold timeout : Nat) (prior : List TrackOp)
    (ts0 : List Nat) (tLast : Nat) (url : String)
    (hlen : (ts0 ++ [tLast]).length = threshold) :
    (∀ now : Nat, now < tLast + timeout →
      isEligible threshold timeout
        (runTrackOps [] (prior ++ (ts0 ++ [tLast]).map (TrackOp.recordFailure url))) url now
        = false) ∧
    (∀ now : Nat, tLast + timeout ≤ now →
      isEligible threshold timeout
        (runTrackOps [] (prior ++ (ts0 ++ [tLast]).map (TrackOp.recordFailure url))) url now
        = true) ∧
    (∀ now : Nat,
      isEligible threshold timeout
        (applyTrackOp
          (runTrackOps [] (prior ++ (ts0 ++ [tLast]).map (TrackOp.recordFailure url)))
          (TrackOp.recordSuccess url)) url now = true) := by
  have hsplit :
      runTrackOps [] (prior ++ (ts0 ++ [tLast]).map (TrackOp.recordFailure url)) =
        runTrackOps (runTrackOps [] prior) ((ts0 ++ [tLast]).map (TrackOp.recordFailure url)) := by
    simp [runTrackOps, List.foldl_append]
  have hcount :
      ¬ (getFS (runTrackOps [] (prior ++ (ts0 ++ [tLast]).map (TrackOp.recordFailure url)))
          url).consecutiveFailures < threshold := by
    rw [hsplit, count_after_failures, hlen]
    omega
  have hlast :
      (getFS (runTrackOps [] (prior ++ (ts0 ++ [tLast]).map (TrackOp.recordFailure url)))
        url).lastFailureAt = some tLast := by
    rw [hsplit, last_after_failures]
  refine ⟨?_, ?_, ?_⟩
  · intro now hnow
    simp only [isEligible, if_neg hcount, hlast]
    simp
    omega
  · intro now hnow
    simp only [isEligible, if_neg hcount, hlast]
    simp
    omega
  · intro now
    simp only [isEligible, getFS_success]
    by_cases hth : 0 < threshold <;> simp [hth]

/-- Witness for C1 with the spec's default policy (threshold 5, timeout
60000 ms) and five failures recorded at times 1..5. -/
theorem C1_circuit_breaker_witness :
    isEligible 5 60000
      (runTrackOps [] (([] : List TrackOp) ++
        ([1, 2, 3, 4] ++ [5]).map (TrackOp.recordFailure "https://a.com")))
      "https://a.com" 6 = false ∧
    isEligible 5 60000
      (runTrackOps [] (([] : List TrackOp) ++
        ([1, 2, 3, 4] ++ [5]).map (TrackOp.recordFailure "https://a.com")))
      "https://a.com" 60005 = true ∧
    isEligible 5 60000
      (applyTrackOp
        (runTrackOps [] (([] : List TrackOp) ++
          ([1, 2, 3, 4] ++ [5]).map (TrackOp.recordFailure "https://a.com")))
        (TrackOp.recordSuccess "https://a.com"))
      "https://a.com" 7 = true := by
  have h := C1_circuit_breaker 5 60000 [] [1, 2, 3, 4] 5 "https://a.com" (by decide)
  exact ⟨h.1 6 (by decide), h.2.1 60005 (by decide), h.2.2 7⟩

/-! ## Lemmas about the TypeScript configuration loader -/

theorem parseUrls_ok_inv {input : UrlInput} {urls : List String}
    (h : RPCConfigParser.parseUrls input = .ok urls) :
    urls ≠ [] ∧ urls.all RPCConfigParser.isValidUrl = true := by
  simp only [RPCConfigParser.parseUrls] at h
  split at h
  · exact absurd h (by simp)
  · rename_i hx
    simp only [Except.ok.injEq] at h
    subst h
    refine ⟨hx, ?_⟩
    simp only [List.all_eq_true]
    exact fun x hx2 => (List.mem_filter.mp hx2).2

theorem attachHeaders_eq (cfg : RPCConfig) (h : Option (List (String × String))) :
    RPCConfigParser.attachHeaders cfg h =
      { cfg with headers := match h with
                            | none => cfg.headers
                            | some hh => if hh = [] then cfg.headers else some hh } := by
  cases h with
  | none => rfl
  | some hh =>
    simp only [RPCConfigParser.attachHeaders]
    split_ifs with h0
    · simp [h0]
    · rfl

theorem loadConfig_ok_inv {env : EnvSnapshot} {o : LoadOptions} {cfg : RPCConfig}
    (h : RPCConfigParser.loadConfig env o = .ok cfg) :
    ∃ input urls, RPCConfigParser.resolveUrlInput o env = some input ∧
      truthyUrlInput (some input) = true ∧
      RPCConfigParser.parseUrls input = .ok urls ∧
      cfg = RPCConfigParser.attachHeaders (RPCConfigParser.mkBaseCfg o urls)
              (RPCConfigParser.resolveHeaders o env) := by
  unfold RPCConfigParser.loadConfig at h
  split at h
  · exact absurd h (by simp)
  · rename_i input hres
    split at h
    · rename_i ht
      split at h
      · exact absurd h (by simp)
      · rename_i urls hp
        simp only [Except.ok.injEq] at h
        exact ⟨input, urls, hres, ht, hp, h.symm⟩
    · exact absurd h (by simp)

theorem resolveUrlInput_of_truthy {o : LoadOptions} {i : UrlInput} (env : EnvSnapshot)
    (hr : o.rpc = some i) (ht : truthyUrlInput (some i) = true) :
    RPCConfigParser.resolveUrlInput o env = some i := by
  unfold RPCConfigParser.resolveUrlInput
  rw [hr]
  cases i with
  | str s =>
    simp only [truthyUrlInput] at ht
    simp [ht]
  | list l => rfl

theorem resolveUrlInput_of_falsy {o : LoadOptions} (env : EnvSnapshot)
    (hf : truthyUrlInput o.rpc = false) :
    RPCConfigParser.resolveUrlInput o env = env.STELLAR_RPC_URLS.map UrlInput.str := by
  unfold RPCConfigParser.resolveUrlInput
  cases hr : o.rpc with
  | none => rfl
  | some i =>
    cases i with
    | str s =>
      rw [hr] at hf
      simp only [truthyUrlInput] at hf
      simp [hf]
    | list l =>
      rw [hr] at hf
      simp [truthyUrlInput] at hf

theorem mkBaseCfg_urls (o : LoadOptions) (urls : List String) :
    (RPCConfigParser.mkBaseCfg o urls).urls = urls := rfl

/-- C7 counterexample: the claim says `parseUrls` trims each candidate also
for explicit-list input.  List entries are in fact passed to validation
untrimmed: an entry with a leading space is dropped (under the spec-level
URL validator) instead of being trimmed and kept. -/
theorem C7_counterexample :
    RPCConfigParser.parseUrls (.list [" https://a.com", "https://b.com"]) =
      .ok ["https://b.com"] ∧
    RPCConfigParser.parseUrls (.list [" https://a.com", "https://b.com"]) ≠
      .ok ["https://a.com", "https://b.com"] := by
  refine ⟨by decide, by decide⟩

/-- C7 (amended): `parseUrls` accepts a comma-delimited string or an
explicit list; candidates from a string are trimmed, while entries of an
explicit list are validated as-is, untrimmed.  Exactly the candidates that
pass the http/https validity check are returned in their original order, and
the call fails precisely when no valid URL remains; any successful result is
nonempty and contains only valid URLs. -/
theorem C7_parseUrls_amended :
    (∀ s : String, RPCConfigParser.parseUrls (.str s) = specParseUrlsString s) ∧
    (∀ l : List String, RPCConfigParser.parseUrls (.list l) = specParseUrlsList l) ∧
    (∀ (input : UrlInput) (urls : List String),
      RPCConfigParser.parseUrls input = .ok urls →
      urls ≠ [] ∧ urls.all RPCConfigParser.isValidUrl = true) := by
  refine ⟨fun s => rfl, fun l => rfl, fun input urls h => parseUrls_ok_inv h⟩

/-- Witness for C7 on the spec's own examples. -/
theorem C7_parseUrls_amended_witness :
    RPCConfigParser.parseUrls (.str "https://a.com,not-a-url") =
      specParseUrlsString "https://a.com,not-a-url" ∧
    (["https://a.com"] ≠ ([] : List String) ∧
      ["https://a.com"].all RPCConfigParser.isValidUrl = true) :=
  ⟨C7_parseUrls_amended.1 "https://a.com,not-a-url",
   C7_parseUrls_amended.2.2 (.str "https://a.com,not-a-url") ["https://a.com"] (by decide)⟩

/-- C5: `loadConfig` takes its endpoint URLs from the `rpc` option when that
option is present (truthy), falls back to `STELLAR_RPC_URLS` otherwise,
fails with the configuration error when neither source is usable, and any
successful result carries at least one URL, all of which pass validation. -/
theorem C5_loadConfig_sources :
    (∀ (env : EnvSnapshot) (o : LoadOptions) (i : UrlInput) (cfg : RPCConfig),
      o.rpc = some i → truthyUrlInput (some i) = true →
      RPCConfigParser.loadConfig env o = .ok cfg →
      RPCConfigParser.parseUrls i = .ok cfg.urls) ∧
    (∀ (env : EnvSnapshot) (o : LoadOptions) (s : String) (cfg : RPCConfig),
      truthyUrlInput o.rpc = false → env.STELLAR_RPC_URLS = some s → truthyS s = true →
      RPCConfigParser.loadConfig env o = .ok cfg →
      RPCConfigParser.parseUrls (.str s) = .ok cfg.urls) ∧
    (∀ (env : EnvSnapshot) (o : LoadOptions),
      truthyUrlInput o.rpc = false →
      (env.STELLAR_RPC_URLS = none ∨ env.STELLAR_RPC_URLS = some "") →
      RPCConfigParser.loadConfig env o = .error RPCConfigParser.msgNoUrls) ∧
    (∀ (env : EnvSnapshot) (o : LoadOptions) (cfg : RPCConfig),
      RPCConfigParser.loadConfig env o = .ok cfg →
      cfg.urls ≠ [] ∧ cfg.urls.all RPCConfigParser.isValidUrl = true) := by
  refine ⟨?_, ?_, ?_, ?_⟩
  · intro env o i cfg hr ht h
    obtain ⟨input, urls, hres, _, hp, hcfg⟩ := loadConfig_ok_inv h
    rw [resolveUrlInput_of_truthy env hr ht] at hres
    simp only [Option.some.injEq] at hres
    subst hres
    have hurls : cfg.urls = urls := by
      rw [hcfg, attachHeaders_eq]
      rfl
    rw [hurls]
    exact hp
  · intro env o s cfg hf henv hs h
    obtain ⟨input, urls, hres, _, hp, hcfg⟩ := loadConfig_ok_inv h
    rw [resolveUrlInput_of_falsy env hf, henv] at hres
    simp at hres
    subst hres
    have hurls : cfg.urls = urls := by
      rw [hcfg, attachHeaders_eq]
      rfl
    rw [hurls]
    exact hp
  · intro env o hf henv
    unfold RPCConfigParser.loadConfig
    rw [resolveUrlInput_of_falsy env hf]
    rcases henv with henv | henv <;> rw [henv] <;> rfl
  · intro env o cfg h
    obtain ⟨input, urls, _, _, hp, hcfg⟩ := loadConfig_ok_inv h
    have hurls : cfg.urls = urls := by
      rw [hcfg, attachHeaders_eq]
      rfl
    rw [hurls]
    exact parseUrls_ok_inv hp

/-- Witness for C5 on a concrete option set and empty environment. -/
theorem C5_loadConfig_sources_witness :
    RPCConfigParser.parseUrls (.str "https://a.com") = .ok ["https://a.com"] ∧
    RPCConfigParser.loadConfig ⟨none, none⟩ ⟨none, none, none, none⟩ =
      .error RPCConfigParser.msgNoUrls := by
  constructor
  · have h := C5_loadConfig_sources.1 ⟨none, none⟩
      ⟨some (.str "https://a.com"), none, none, none⟩ (.str "https://a.com")
      { urls := ["https://a.com"], timeout := 30000, retries := 3, retryDelay := 1000,
        circuitBreakerThreshold := 5, circuitBreakerTimeout := 60000, maxRedirects := 5,
        headers := none }
      rfl rfl (by decide)
    exact h
  · exact C5_loadConfig_sources.2.2.1 ⟨none, none⟩ ⟨none, none, none, none⟩ rfl (Or.inl rfl)

/-- C9: with the timeout and retries options unset, a successful
`loadConfig` returns the documented numeric defaults. -/
theorem C9_loadConfig_defaults :
    ∀ (env : EnvSnapshot) (o : LoadOptions) (cfg : RPCConfig),
      o.timeout = none → o.retries = none →
      RPCConfigParser.loadConfig env o = .ok cfg →
      cfg.timeout = 30000 ∧ cfg.retries = 3 ∧ cfg.retryDelay = 1000 ∧
      cfg.circuitBreakerThreshold = 5 ∧ cfg.circuitBreakerTimeout = 60000 ∧
      cfg.maxRedirects = 5 := by
  intro env o cfg hT hR h
  obtain ⟨input, urls, _, _, _, hcfg⟩ := loadConfig_ok_inv h
  subst hcfg
  rw [attachHeaders_eq]
  simp [RPCConfigParser.mkBaseCfg, hT, hR]

/-- Witness for C9 on a concrete option set. -/
theorem C9_loadConfig_defaults_witness :
    ({ urls := ["https://a.com"], timeout := 30000, retries := 3, retryDelay := 1000,
       circuitBreakerThreshold := 5, circuitBreakerTimeout := 60000, maxRedirects := 5,
       headers := none } : RPCConfig).timeout = 30000 ∧
    ({ urls := ["https://a.com"], timeout := 30000, retries := 3, retryDelay := 1000,
       circuitBreakerThreshold := 5, circuitBreakerTimeout := 60000, maxRedirects := 5,
       headers := none } : RPCConfig).retries = 3 ∧
    ({ urls := ["https://a.com"], timeout := 30000, retries := 3, retryDelay := 1000,
       circuitBreakerThreshold := 5, circuitBreakerTimeout := 60000, maxRedirects := 5,
       headers := none } : RPCConfig).retryDelay = 1000 ∧
    ({ urls := ["https://a.com"], timeout := 30000, retries := 3, retryDelay := 1000,
       circuitBreakerThreshold := 5, circuitBreakerTimeout := 60000, maxRedirects := 5,
       headers := none } : RPCConfig).circuitBreakerThreshold = 5 ∧
    ({ urls := ["https://a.com"], timeout := 30000, retries := 3, retryDelay := 1000,
       circuitBreakerThreshold := 5, circuitBreakerTimeout := 60000, maxRedirects := 5,
       headers := none } : RPCConfig).circuitBreakerTimeout = 60000 ∧
    ({ urls := ["https://a.com"], timeout := 30000, retries := 3, retryDelay := 1000,
       circuitBreakerThreshold := 5, circuitBreakerTimeout := 60000, maxRedirects := 5,
       headers := none } : RPCConfig).maxRedirects = 5 :=
  C9_loadConfig_defaults ⟨none, none⟩ ⟨some (.str "https://a.com"), none, none, none⟩
    _ rfl rfl (by decide)

/-- C10: the `headers` field of a successful `loadConfig` result is present
exactly when the resolved header mapping exists and is nonempty; a source
that resolves to an empty mapping leaves `headers` absent. -/
theorem C10_headers_presence :
    ∀ (env : EnvSnapshot) (o : LoadOptions) (cfg : RPCConfig),
      RPCConfigParser.loadConfig env o = .ok cfg →
      (cfg.headers = none ↔
        (RPCConfigParser.resolveHeaders o env = none ∨
         RPCConfigParser.resolveHeaders o env = some [])) ∧
      (∀ hs, RPCConfigParser.resolveHeaders o env = some hs → hs ≠ [] →
        cfg.headers = some hs) := by
  intro env o cfg h
  obtain ⟨input, urls, _, _, _, hcfg⟩ := loadConfig_ok_inv h
  subst hcfg
  rw [attachHeaders_eq]
  cases hh : RPCConfigParser.resolveHeaders o env with
  | none => simp [RPCConfigParser.mkBaseCfg]
  | some hs =>
    by_cases h0 : hs = []
    · subst h0
      simp [RPCConfigParser.mkBaseCfg]
    · simp [RPCConfigParser.mkBaseCfg, h0]

/-- Witness for C10: a header option that parses to an empty mapping leaves
the `headers` field absent. -/
theorem C10_headers_presence_witness :
    (RPCConfigParser.resolveHeaders
        ⟨some (.str "https://a.com"), none, none, some (.str "notvalid")⟩
        ⟨none, none⟩ = none ∨
      RPCConfigParser.resolveHeaders
        ⟨some (.str "https://a.com"), none, none, some (.str "notvalid")⟩
        ⟨none, none⟩ = some []) := by
  have h := C10_headers_presence ⟨none, none⟩
    ⟨some (.str "https://a.com"), none, none, some (.str "notvalid")⟩
    { urls := ["https://a.com"], timeout := 30000, retries := 3, retryDelay := 1000,
      circuitBreakerThreshold := 5, circuitBreakerTimeout := 60000, maxRedirects := 5,
      headers := none }
    (by decide)
  exact h.1.mp rfl

/-! ## Lemmas about the Go client builder -/

theorem NewClient_unfold (tokenEnv : String) (opts : List ClientOption) :
    NewClient tokenEnv opts =
      match applyOptions opts (initialBuilder tokenEnv) with
      | .error e => .error e
      | .ok b =>
        match validate b with
        | .error e => .error e
        | .ok b => build b := rfl

theorem applyOptions_append (l1 l2 : List ClientOption) (b : ClientBuilder) :
    applyOptions (l1 ++ l2) b =
      match applyOptions l1 b with
      | .error e => .error e
      | .ok b' => applyOptions l2 b' := by
  induction l1 generalizing b with
  | nil => rfl
  | cons o os ih =>
    simp only [List.cons_append, applyOptions]
    cases o b with
    | error e => rfl
    | ok b' => exact ih b'

theorem valid_ne_empty {u : String} (h : isValidURL u = true) : u ≠ "" := by
  intro he
  subst he
  exact absurd h (by decide)

theorem validateNetworkStep_horizonURL (b : ClientBuilder) :
    (validateNetworkStep b).horizonURL = b.horizonURL := by
  unfold validateNetworkStep
  split <;> rfl

theorem validateNetworkStep_altURLs (b : ClientBuilder) :
    (validateNetworkStep b).altURLs = b.altURLs := by
  unfold validateNetworkStep
  split <;> rfl

theorem validateHorizonStep_altURLs (b : ClientBuilder) :
    (validateHorizonStep b).altURLs = b.altURLs := by
  unfold validateHorizonStep
  split <;> rfl

theorem validateHorizonStep_of_ne {b : ClientBuilder} (h : b.horizonURL ≠ "") :
    validateHorizonStep b = b := by
  unfold validateHorizonStep
  rw [if_neg]
  intro hc
  exact h hc.1

theorem buildSorobanStep_horizonURL (b : ClientBuilder) :
    (buildSorobanStep b).horizonURL = b.horizonURL := by
  unfold buildSorobanStep
  split <;> rfl

theorem buildSorobanStep_altURLs (b : ClientBuilder) :
    (buildSorobanStep b).altURLs = b.altURLs := by
  unfold buildSorobanStep
  split <;> rfl

theorem buildConfigStep_horizonURL (b : ClientBuilder) :
    (buildConfigStep b).horizonURL = b.horizonURL := by
  unfold buildConfigStep
  split <;> rfl

theorem buildConfigStep_altURLs (b : ClientBuilder) :
    (buildConfigStep b).altURLs = b.altURLs := by
  unfold buildConfigStep
  split <;> rfl

theorem buildHTTPStep_horizonURL (b : ClientBuilder) :
    (buildHTTPStep b).horizonURL = b.horizonURL := by
  unfold buildHTTPStep
  split <;> rfl

theorem buildHTTPStep_altURLs (b : ClientBuilder) :
    (buildHTTPStep b).altURLs = b.altURLs := by
  unfold buildHTTPStep
  split <;> rfl

theorem buildAltFromHorizonStep_horizonURL (b : ClientBuilder) :
    (buildAltFromHorizonStep b).horizonURL = b.horizonURL := by
  unfold buildAltFromHorizonStep
  split <;> rfl

theorem buildHorizonFromConfigStep_altURLs (b : ClientBuilder) :
    (buildHorizonFromConfigStep b).altURLs = b.altURLs := by
  unfold buildHorizonFromConfigStep
  split <;> rfl

/-- `build` always succeeds and returns the final builder's primary URL and
alternate list verbatim. -/
theorem build_eq_ok (b : ClientBuilder) :
    ∃ c, build b = .ok c ∧
      c.AltURLs = (buildAltFallbackStep (buildHorizonFromConfigStep (buildAltFromHorizonStep
        (buildHTTPStep (buildConfigStep (buildSorobanStep b)))))).altURLs ∧
      c.HorizonURL = (buildAltFallbackStep (buildHorizonFromConfigStep (buildAltFromHorizonStep
        (buildHTTPStep (buildConfigStep (buildSorobanStep b)))))).horizonURL :=
  ⟨_, rfl, rfl, rfl⟩

theorem buildAltFallbackStep_horizonURL (b : ClientBuilder) :
    (buildAltFallbackStep b).horizonURL = b.horizonURL := by
  unfold buildAltFallbackStep
  split <;> rfl

theorem buildAltFallbackStep_ne_nil (b : ClientBuilder) :
    (buildAltFallbackStep b).altURLs ≠ [] := by
  unfold buildAltFallbackStep
  split
  · simp
  · rename_i h
    exact h

theorem build_head_of_inv {b : ClientBuilder} {c : Client}
    (hinv : b.altURLs = [] ∨ (b.altURLs.head? = some b.horizonURL ∧ b.horizonURL ≠ ""))
    (h : build b = .ok c) : c.AltURLs.head? = some c.HorizonURL := by
  obtain ⟨c', hc', hA, hH⟩ := build_eq_ok b
  rw [hc'] at h
  simp only [Except.ok.injEq] at h
  subst h
  rw [hA, hH]
  have h3A : (buildHTTPStep (buildConfigStep (buildSorobanStep b))).altURLs = b.altURLs := by
    rw [buildHTTPStep_altURLs, buildConfigStep_altURLs, buildSorobanStep_altURLs]
  have h3H : (buildHTTPStep (buildConfigStep (buildSorobanStep b))).horizonURL
      = b.horizonURL := by
    rw [buildHTTPStep_horizonURL, buildConfigStep_horizonURL, buildSorobanStep_horizonURL]
  rcases hinv with hN | ⟨hh, hne⟩
  · by_cases hH0 : b.horizonURL = ""
    · have e4 : buildAltFromHorizonStep (buildHTTPStep (buildConfigStep (buildSorobanStep b)))
          = buildHTTPStep (buildConfigStep (buildSorobanStep b)) := by
        unfold buildAltFromHorizonStep
        rw [if_neg]
        intro hc
        rw [h3H] at hc
        exact hc.2 hH0
      rw [e4]
      have e5 : buildHorizonFromConfigStep (buildHTTPStep (buildConfigStep (buildSorobanStep b)))
          = { buildHTTPStep (buildConfigStep (buildSorobanStep b)) with
              horizonURL := ((buildHTTPStep (buildConfigStep
                (buildSorobanStep b))).config.getD MainnetConfig).HorizonURL } := by
        unfold buildHorizonFromConfigStep
        rw [if_pos (by rw [h3H]; exact hH0)]
      rw [e5]
      unfold buildAltFallbackStep
      rw [if_pos (by simpa [h3A] using hN)]
      simp
    · have e4 : buildAltFromHorizonStep (buildHTTPStep (buildConfigStep (buildSorobanStep b)))
          = { buildHTTPStep (buildConfigStep (buildSorobanStep b)) with
              altURLs := [(buildHTTPStep (buildConfigStep (buildSorobanStep b))).horizonURL] } := by
        unfold buildAltFromHorizonStep
        rw [if_pos ⟨by rw [h3A]; exact hN, by rw [h3H]; exact hH0⟩]
      rw [e4]
      have e5 : buildHorizonFromConfigStep
          { buildHTTPStep (buildConfigStep (buildSorobanStep b)) with
            altURLs := [(buildHTTPStep (buildConfigStep (buildSorobanStep b))).horizonURL] }
          = { buildHTTPStep (buildConfigStep (buildSorobanStep b)) with
              altURLs := [(buildHTTPStep (buildConfigStep (buildSorobanStep b))).horizonURL] } := by
        unfold buildHorizonFromConfigStep
        rw [if_neg]
        intro hc
        simp only at hc
        rw [h3H] at hc
        exact hH0 hc
      rw [e5]
      unfold buildAltFallbackStep
      rw [if_neg (by simp)]
      simp
  · have hAne : b.altURLs ≠ [] := by
      intro hc
      rw [hc] at hh
      simp at hh
    have e4 : buildAltFromHorizonStep (buildHTTPStep (buildConfigStep (buildSorobanStep b)))
        = buildHTTPStep (buildConfigStep (buildSorobanStep b)) := by
      unfold buildAltFromHorizonStep
      rw [if_neg]
      intro hc
      rw [h3A] at hc
      exact hAne hc.1
    have e5 : buildHorizonFromConfigStep (buildHTTPStep (buildConfigStep (buildSorobanStep b)))
        = buildHTTPStep (buildConfigStep (buildSorobanStep b)) := by
      unfold buildHorizonFromConfigStep
      rw [if_neg]
      intro hc
      rw [h3H] at hc
      exact hne hc
    have e6 : buildAltFallbackStep (buildHTTPStep (buildConfigStep (buildSorobanStep b)))
        = buildHTTPStep (buildConfigStep (buildSorobanStep b)) := by
      unfold buildAltFallbackStep
      rw [if_neg]
      intro hc
      rw [h3A] at hc
      exact hAne hc
    rw [e4, e5, e6, h3A, h3H]
    exact hh

theorem build_ne_nil {b : ClientBuilder} {c : Client} (h : build b = .ok c) :
    c.AltURLs ≠ [] := by
  obtain ⟨c', hc', hA, _⟩ := build_eq_ok b
  rw [hc'] at h
  simp only [Except.ok.injEq] at h
  subst h
  rw [hA]
  exact buildAltFallbackStep_ne_nil _

theorem validate_inv {b b1 : ClientBuilder}
    (hinv : b.altURLs = [] ∨ (b.altURLs.head? = some b.horizonURL ∧ b.horizonURL ≠ ""))
    (h : validate b = .ok b1) :
    b1.altURLs = [] ∨ (b1.altURLs.head? = some b1.horizonURL ∧ b1.horizonURL ≠ "") := by
  simp only [validate, Except.ok.injEq] at h
  subst h
  rcases hinv with hN | ⟨hh, hne⟩
  · left
    rw [validateHorizonStep_altURLs, validateNetworkStep_altURLs]
    exact hN
  · right
    have hb0 : (validateNetworkStep b).horizonURL = b.horizonURL := validateNetworkStep_horizonURL b
    have he : validateHorizonStep (validateNetworkStep b) = validateNetworkStep b :=
      validateHorizonStep_of_ne (by rw [hb0]; exact hne)
    rw [he, validateNetworkStep_altURLs, hb0]
    exact ⟨hh, hne⟩

theorem interp_safe_preserves {o : OptionSpec} {b b' : ClientBuilder}
    (hs : safeOpt o = true)
    (hinv : b.altURLs = [] ∨ (b.altURLs.head? = some b.horizonURL ∧ b.horizonURL ≠ ""))
    (h : interpOption o b = .ok b') :
    b'.altURLs = [] ∨ (b'.altURLs.head? = some b'.horizonURL ∧ b'.horizonURL ≠ "") := by
  cases o with
  | withNetwork net =>
    simp only [interpOption, WithNetwork, Except.ok.injEq] at h
    subst h
    exact hinv
  | withToken token =>
    simp only [interpOption, WithToken, Except.ok.injEq] at h
    subst h
    exact hinv
  | withHeaders headers =>
    simp only [interpOption, WithHeaders, Except.ok.injEq] at h
    subst h
    exact hinv
  | withHorizonURL url =>
    simp only [safeOpt, ne_eq, decide_not] at hs
    simp only [interpOption, WithHorizonURL] at h
    split at h
    · exact absurd h (by simp)
    · simp only [Except.ok.injEq] at h
      subst h
      right
      refine ⟨rfl, ?_⟩
      intro hc
      have hc2 : url = "" := hc
      rw [hc2] at hs
      simp at hs
  | withAltURLs urls =>
    simp only [interpOption, WithAltURLs] at h
    split at h
    · rename_i hall
      cases urls with
      | nil =>
        simp only [Except.ok.injEq] at h
        subst h
        exact hinv
      | cons u us =>
        simp only [Except.ok.injEq] at h
        subst h
        right
        refine ⟨rfl, ?_⟩
        have hu : isValidURL u = true := by
          simp only [List.all_cons, Bool.and_eq_true] at hall
          exact hall.1
        exact valid_ne_empty hu
    · exact absurd h (by simp)
  | withSorobanURL url =>
    simp only [interpOption, WithSorobanURL] at h
    split at h
    · exact absurd h (by simp)
    · simp only [Except.ok.injEq] at h
      subst h
      exact hinv
  | withNetworkConfig cfg => simp [safeOpt] at hs
  | withCacheEnabled enabled =>
    simp only [interpOption, WithCacheEnabled, Except.ok.injEq] at h
    subst h
    exact hinv
  | withRequestTimeout d =>
    simp only [interpOption, WithRequestTimeout, Except.ok.injEq] at h
    subst h
    exact hinv
  | withHTTPClient client =>
    simp only [interpOption, WithHTTPClient, Except.ok.injEq] at h
    subst h
    exact hinv

theorem applyOptions_safe_preserves {opts : List OptionSpec} {b b' : ClientBuilder}
    (hs : ∀ o ∈ opts, safeOpt o = true)
    (hinv : b.altURLs = [] ∨ (b.altURLs.head? = some b.horizonURL ∧ b.horizonURL ≠ ""))
    (h : applyOptions (opts.map interpOption) b = .ok b') :
    b'.altURLs = [] ∨ (b'.altURLs.head? = some b'.horizonURL ∧ b'.horizonURL ≠ "") := by
  induction opts generalizing b with
  | nil =>
    simp only [List.map_nil, applyOptions, Except.ok.injEq] at h
    subst h
    exact hinv
  | cons o os ih =>
    simp only [List.map_cons, applyOptions] at h
    cases ho : interpOption o b with
    | error e => rw [ho] at h; simp at h
    | ok b1 =>
      rw [ho] at h
      exact ih (fun x hx => hs x (List.mem_cons_of_mem _ hx))
        (interp_safe_preserves (hs o (List.mem_cons_self _ _)) hinv ho) h

theorem initialBuilder_altURLs (tokenEnv : String) :
    (initialBuilder tokenEnv).altURLs = [] := rfl

/-- C4: option application stops at the first failing option.  If every
option of the prefix succeeds and the next option fails, `NewClient`
returns exactly that option's error (and hence no client), regardless of
the options that follow, which are never applied. -/
theorem C4_first_option_error (tokenEnv : String) (pre : List ClientOption)
    (f : ClientOption) (post : List ClientOption) (b' : ClientBuilder) (e : BuildError)
    (hpre : applyOptions pre (initialBuilder tokenEnv) = .ok b')
    (hf : f b' = .error e) :
    NewClient tokenEnv (pre ++ f :: post) = .error e := by
  rw [NewClient_unfold, applyOptions_append, hpre]
  simp only [applyOptions, hf]

/-- Witness for C4: a failing second option aborts construction with its
error, ignoring the third option. -/
theorem C4_first_option_error_witness :
    NewClient "tok" ([WithToken "a"] ++
      (fun _ => (Except.error (BuildError.validation "boom") :
        Except BuildError ClientBuilder)) :: [WithCacheEnabled false]) =
      .error (.validation "boom") :=
  C4_first_option_error "tok" [WithToken "a"]
    (fun _ => .error (.validation "boom")) [WithCacheEnabled false]
    { initialBuilder "tok" with token := "a" } (.validation "boom") rfl rfl

/-- C3 counterexample: the option sequence `[WithHorizonURL ""]` uses no
`WithAltURLs`, yet the resulting client has `AltURLs = [""]` while its
`HorizonURL` is the canonical Mainnet default, so the first alternate URL
differs from the primary URL. -/
theorem C3_counterexample :
    (NewClient "" [WithHorizonURL ""]).toOption.map
      (fun c => (c.AltURLs.head?, c.HorizonURL)) = some (some "", MainnetHorizonURL) ∧
    (some "" : Option String) ≠ some MainnetHorizonURL := by
  exact ⟨by decide, by decide⟩

/-- C3 (amended): every successfully built client has a nonempty `AltURLs`
list; and whenever the option sequence contains no `WithNetworkConfig` and
never applies `WithHorizonURL` to the empty string, the first alternate URL
equals the client's `HorizonURL` (whether or not `WithAltURLs` was used). -/
theorem C3_alturls_amended :
    (∀ (tokenEnv : String) (opts : List OptionSpec) (c : Client),
      NewClientS tokenEnv opts = .ok c → c.AltURLs ≠ []) ∧
    (∀ (tokenEnv : String) (opts : List OptionSpec) (c : Client),
      (∀ o ∈ opts, safeOpt o = true) →
      NewClientS tokenEnv opts = .ok c →
      c.AltURLs.head? = some c.HorizonURL) := by
  constructor
  · intro te opts c h
    unfold NewClientS at h
    rw [NewClient_unfold] at h
    cases happ : applyOptions (opts.map interpOption) (initialBuilder te) with
    | error e => rw [happ] at h; simp at h
    | ok b =>
      rw [happ] at h
      simp only [validate] at h
      exact build_ne_nil h
  · intro te opts c hs h
    unfold NewClientS at h
    rw [NewClient_unfold] at h
    cases happ : applyOptions (opts.map interpOption) (initialBuilder te) with
    | error e => rw [happ] at h; simp at h
    | ok b =>
      rw [happ] at h
      have hinvb := applyOptions_safe_preserves hs (Or.inl (initialBuilder_altURLs te)) happ
      have hinv1 := validate_inv hinvb
        (rfl : validate b = .ok (validateHorizonStep (validateNetworkStep b)))
      simp only [validate] at h
      exact build_head_of_inv hinv1 h

/-- Witness for C3 on the option sequence `[withToken "t"]`. -/
theorem C3_alturls_amended_witness :
    ({ HorizonURL := MainnetHorizonURL, Network := Mainnet, SorobanURL := MainnetSorobanURL,
       AltURLs := [MainnetHorizonURL], httpClient := createHTTPClient "t" [] defaultHTTPTimeout,
       token := "t", Config := MainnetConfig, CacheEnabled := true, Headers := [],
       failures := [], lastFailure := [] } : Client).AltURLs ≠ [] ∧
    ({ HorizonURL := MainnetHorizonURL, Network := Mainnet, SorobanURL := MainnetSorobanURL,
       AltURLs := [MainnetHorizonURL], httpClient := createHTTPClient "t" [] defaultHTTPTimeout,
       token := "t", Config := MainnetConfig, CacheEnabled := true, Headers := [],
       failures := [], lastFailure := [] } : Client).AltURLs.head? =
      some ({ HorizonURL := MainnetHorizonURL, Network := Mainnet,
              SorobanURL := MainnetSorobanURL, AltURLs := [MainnetHorizonURL],
              httpClient := createHTTPClient "t" [] defaultHTTPTimeout, token := "t",
              Config := MainnetConfig, CacheEnabled := true, Headers := [],
              failures := [], lastFailure := [] } : Client).HorizonURL := by
  have hok : NewClientS "e" [OptionSpec.withToken "t"] =
      .ok { HorizonURL := MainnetHorizonURL, Network := Mainnet,
            SorobanURL := MainnetSorobanURL, AltURLs := [MainnetHorizonURL],
            httpClient := createHTTPClient "t" [] defaultHTTPTimeout, token := "t",
            Config := MainnetConfig, CacheEnabled := true, Headers := [],
            failures := [], lastFailure := [] } := by decide
  exact ⟨C3_alturls_amended.1 "e" [.withToken "t"] _ hok,
         C3_alturls_amended.2 "e" [.withToken "t"] _ (by decide) hok⟩

/-- C8: applying `WithAltURLs` with two valid URLs yields a client whose
primary URL is the first entry and whose alternate list is exactly the given
list; any invalid entry makes the option fail with a validation error
without touching the builder, and construction aborts with an error no
matter where in the option sequence the option appears. -/
theorem C8_withAltURLs :
    (∀ (tokenEnv u1 u2 : String), isValidURL u1 = true → isValidURL u2 = true →
      NewClient tokenEnv [WithAltURLs [u1, u2]] =
        .ok { HorizonURL := u1, Network := Mainnet, SorobanURL := MainnetSorobanURL,
              AltURLs := [u1, u2],
              httpClient := createHTTPClient tokenEnv [] defaultHTTPTimeout,
              token := tokenEnv, Config := MainnetConfig, CacheEnabled := true,
              Headers := [], failures := [], lastFailure := [] }) ∧
    (∀ urls : List String, urls.all isValidURL = false →
      (∀ b, WithAltURLs urls b = .error (.validation "invalid URL in altURLs")) ∧
      (∀ (tokenEnv : String) (pre post : List ClientOption),
        ∃ e, NewClient tokenEnv (pre ++ WithAltURLs urls :: post) = .error e)) := by
  constructor
  · intro te u1 u2 h1 h2
    have hne1 : u1 ≠ "" := valid_ne_empty h1
    have hall : ([u1, u2].all isValidURL) = true := by simp [h1, h2]
    have hopt : WithAltURLs [u1, u2] (initialBuilder te) =
        .ok { initialBuilder te with altURLs := [u1, u2], horizonURL := u1 } := by
      unfold WithAltURLs
      rw [if_pos hall]
    have happ : applyOptions [WithAltURLs [u1, u2]] (initialBuilder te) =
        .ok { initialBuilder te with altURLs := [u1, u2], horizonURL := u1 } := by
      simp only [applyOptions, hopt]
    rw [NewClient_unfold, happ]
    have hvn : validateNetworkStep
        { initialBuilder te with altURLs := [u1, u2], horizonURL := u1 } =
        { initialBuilder te with altURLs := [u1, u2], horizonURL := u1 } := by
      unfold validateNetworkStep
      split
      · rename_i hc
        exact absurd (show ("mainnet" : String) = "" from hc) (by decide)
      · rfl
    have hvh : validateHorizonStep
        { initialBuilder te with altURLs := [u1, u2], horizonURL := u1 } =
        { initialBuilder te with altURLs := [u1, u2], horizonURL := u1 } :=
      validateHorizonStep_of_ne hne1
    simp only [validate, hvn, hvh]
    unfold build buildSorobanStep buildConfigStep buildHTTPStep buildAltFromHorizonStep
      buildHorizonFromConfigStep buildAltFallbackStep
    simp [initialBuilder, newBuilder, hne1, getDefaultSorobanURL, getConfig,
      Mainnet, Testnet, Futurenet]
  · intro urls hall
    constructor
    · intro b
      unfold WithAltURLs
      rw [if_neg (by simp [hall])]
    · intro te pre post
      cases happ : applyOptions pre (initialBuilder te) with
      | error e =>
        exact ⟨e, by rw [NewClient_unfold, applyOptions_append, happ]⟩
      | ok b' =>
        refine ⟨.validation "invalid URL in altURLs", ?_⟩
        rw [NewClient_unfold, applyOptions_append, happ]
        have hopt : WithAltURLs urls b' = .error (.validation "invalid URL in altURLs") := by
          unfold WithAltURLs
          rw [if_neg (by simp [hall])]
        simp only [applyOptions, hopt]

/-- Witness for C8 on concrete URL lists. -/
theorem C8_withAltURLs_witness :
    NewClient "" [WithAltURLs ["https://u1.org", "https://u2.org"]] =
      .ok { HorizonURL := "https://u1.org", Network := Mainnet,
            SorobanURL := MainnetSorobanURL,
            AltURLs := ["https://u1.org", "https://u2.org"],
            httpClient := createHTTPClient "" [] defaultHTTPTimeout, token := "",
            Config := MainnetConfig, CacheEnabled := true, Headers := [],
            failures := [], lastFailure := [] } ∧
    WithAltURLs ["https://u1.org", "nope"] newBuilder =
      .error (.validation "invalid URL in altURLs") := by
  refine ⟨C8_withAltURLs.1 "" "https://u1.org" "https://u2.org" (by decide) (by decide), ?_⟩
  exact (C8_withAltURLs.2 ["https://u1.org", "nope"] (by decide)).1 newBuilder
